import Mathlib

/-!
Verification of the derived-state computation engine of the proptrader-hub
repository: the Account P&L Reconciler (`recalcAccountPnl` in
`src/context/DataContext.tsx`), the Trade Aggregation Engine
(`metrics` in `src/pages/Analytics.tsx`, `tradeStats` in
`src/pages/Dashboard.tsx`) and the Dashboard/Calendar Derivation
(the trade-aware `Calendar` page: its `monthStats` and day-cell P&L
resolution).

Numbers are embedded as rationals.  JavaScript `Math.round` rounds half
toward positive infinity, exactly as Mathlib's `round` on `ℚ`
(`round x = ⌊x + 1/2⌋`), so `Math.round(x * 100) / 100` is embedded as
`round2`.  JavaScript `Infinity` (the profit-factor sentinel stored in a
number field and compared with `=== Infinity` for display) is embedded as
the dedicated constructor `ProfitFactor.inf`.
-/

namespace PropTrader

/-- `AccountType` from `src/types/index.ts`. -/
inductive AccountType where
  | evaluation
  | funded
deriving DecidableEq

/-- Union of `EvaluationStatus` and `FundedStatus` from `src/types/index.ts`. -/
inductive AccountStatus where
  | in_progress
  | passed
  | failed
  | active
  | breached
  | withdrawn
deriving DecidableEq

/-- `TradeDirection` from `src/types/index.ts`. -/
inductive TradeDirection where
  | long
  | short
deriving DecidableEq

/-- `TradeResult` from `src/types/index.ts`. -/
inductive TradeResult where
  | win
  | loss
  | breakeven
deriving DecidableEq

/-- The `Account` record from `src/types/index.ts`. -/
structure Account where
  id : String
  type : AccountType
  propFirm : String
  accountSize : ℚ
  startDate : String
  status : AccountStatus
  endDate : Option String := none
  profitLoss : ℚ
  maxDrawdown : Option ℚ := none
  profitTarget : Option ℚ := none
  notes : Option String := none
deriving DecidableEq

/-- The `Trade` record from `src/types/index.ts`. -/
structure Trade where
  id : String
  date : String
  time : Option String := none
  instrument : String
  setupId : String
  accountId : Option String := none
  direction : TradeDirection
  entry : ℚ
  exit : Option ℚ := none
  stopLoss : Option ℚ := none
  takeProfit : Option ℚ := none
  contracts : ℕ
  pnl : ℚ
  result : TradeResult
  riskReward : Option ℚ := none
  rating : Option ℚ := none
  notes : Option String := none
deriving DecidableEq

/-- The `DailyEntry` record from `src/types/index.ts`. -/
structure DailyEntry where
  id : String
  date : String
  pnl : Option ℚ := none
  notes : Option String := none
deriving DecidableEq

/-- `Math.round(x * 100) / 100` from `recalcAccountPnl`. -/
def round2 (q : ℚ) : ℚ := (round (q * 100) : ℚ) / 100

/-- The "currently active trading account" predicate used by
`recalcAccountPnl` (`DataContext.tsx` lines 72-77) and by the Dashboard's
`activeAccounts` filter: funded+active or evaluation+in_progress. -/
def isActiveTrading (a : Account) : Bool :=
  match a.type, a.status with
  | .funded, .active => true
  | .evaluation, .in_progress => true
  | _, _ => false

/-- `tradingIds` of `recalcAccountPnl`: ids of the active trading accounts. -/
def activeIds (accounts : List Account) : List String :=
  (accounts.filter isActiveTrading).map Account.id

/-- `allTrades.some(t => t.accountId === 'split')` from `recalcAccountPnl`. -/
def hasSplitTrades (ts : List Trade) : Bool :=
  ts.any (fun t => t.accountId == some "split")

/-- `allTrades.filter(t => t.accountId === account.id)` from `recalcAccountPnl`. -/
def directTradesOf (ts : List Trade) (aid : String) : List Trade :=
  ts.filter (fun t => t.accountId == some aid)

/-- `allTrades.filter(t => t.accountId === 'split')` from `recalcAccountPnl`. -/
def splitTrades (ts : List Trade) : List Trade :=
  ts.filter (fun t => t.accountId == some "split")

/-- Whether `recalcAccountPnl` recomputes this account at all:
`hasDirectTrades || isSplitTarget` (the negation of the early
`return account` guard on line 87). -/
def touched (tradingIds : List String) (hasSplit : Bool) (ts : List Trade)
    (a : Account) : Bool :=
  decide (0 < (directTradesOf ts a.id).length) ||
    (tradingIds.contains a.id && hasSplit)

/-- The `newPnl` computed by `recalcAccountPnl` for one account:
`Math.round((directPnl + splitPnl) * 100) / 100` with
`splitPnl = Σ (t.pnl / splitCount)` over the split trades when the account
is a split target. -/
def newPnlCore (tradingIds : List String) (splitCount : ℕ) (hasSplit : Bool)
    (ts : List Trade) (a : Account) : ℚ :=
  let directPnl := ((directTradesOf ts a.id).map Trade.pnl).sum
  let isSplitTarget := tradingIds.contains a.id && hasSplit
  let splitPnl : ℚ :=
    if isSplitTarget && decide (0 < splitCount) then
      ((splitTrades ts).map (fun t => t.pnl / (splitCount : ℚ))).sum
    else 0
  round2 (directPnl + splitPnl)

/-- The first status block of `recalcAccountPnl` (lines 104-116):
auto-fail an in-progress evaluation, or auto-breach an active funded
account, when `maxDrawdown` is set and `newPnl <= -maxDrawdown`. -/
def drawdownStep (today : String) (ty : AccountType) (st : AccountStatus)
    (ed : Option String) (md : Option ℚ) (p : ℚ) :
    AccountStatus × Option String :=
  match md with
  | some m =>
    if p ≤ -m then
      if ty = .evaluation ∧ st = .in_progress then (.failed, some today)
      else if ty = .funded ∧ st = .active then (.breached, some today)
      else (st, ed)
    else (st, ed)
  | none => (st, ed)

/-- Both sequential status blocks of `recalcAccountPnl`
(`DataContext.tsx` lines 101-127).  The second block (auto-pass on profit
target, lines 118-127) tests `account.status` — the ORIGINAL status — so
when it fires it overwrites whatever the drawdown block produced. -/
def stepStatus (today : String) (ty : AccountType) (st : AccountStatus)
    (ed : Option String) (md pt : Option ℚ) (p : ℚ) :
    AccountStatus × Option String :=
  match pt with
  | some q =>
    if ty = .evaluation ∧ st = .in_progress ∧ q ≤ p then (.passed, some today)
    else drawdownStep today ty st ed md p
  | none => drawdownStep today ty st ed md p

/-- The write-back of `recalcAccountPnl` (lines 129-134): overwrite
`profitLoss`, `status` and `endDate`, all other fields spread unchanged. -/
def applyRecalc (today : String) (p : ℚ) (a : Account) : Account :=
  { a with
    profitLoss := p
    status := (stepStatus today a.type a.status a.endDate a.maxDrawdown
      a.profitTarget p).1
    endDate := (stepStatus today a.type a.status a.endDate a.maxDrawdown
      a.profitTarget p).2 }

/-- The body of the `accounts.map` in `recalcAccountPnl` for one account. -/
def recalcOne (today : String) (tradingIds : List String) (splitCount : ℕ)
    (hasSplit : Bool) (allTrades : List Trade) (account : Account) : Account :=
  if touched tradingIds hasSplit allTrades account then
    applyRecalc today
      (newPnlCore tradingIds splitCount hasSplit allTrades account) account
  else account

/-- `recalcAccountPnl` from `src/context/DataContext.tsx` lines 71-136.
`new Date().toISOString().split('T')[0]` is passed in as `today`. -/
def recalcAccountPnl (today : String) (accounts : List Account)
    (allTrades : List Trade) : List Account :=
  let tradingIds := activeIds accounts
  accounts.map
    (recalcOne today tradingIds tradingIds.length (hasSplitTrades allTrades)
      allTrades)

/-- The `newPnl` that `recalcAccountPnl today accounts allTrades` computes
for account `a`, expressed directly from the inputs. -/
def accountNewPnl (accounts : List Account) (ts : List Trade) (a : Account) : ℚ :=
  newPnlCore (activeIds accounts) (activeIds accounts).length
    (hasSplitTrades ts) ts a

/-- Number of currently active trading accounts (the split divisor `N`). -/
def activeCount (accounts : List Account) : ℕ :=
  (accounts.filter isActiveTrading).length

/-! ### Trade Aggregation Engine -/

/-- Profit factor as the source stores it: a finite number, or the
JavaScript `Infinity` sentinel produced when `grossLoss === 0` and
`grossProfit > 0`. -/
inductive ProfitFactor where
  | finite (q : ℚ)
  | inf
deriving DecidableEq

/-- The profit-factor ternary appearing verbatim in both `Analytics.tsx`
and `Dashboard.tsx`:
`grossLoss > 0 ? grossProfit / grossLoss : grossProfit > 0 ? Infinity : 0`. -/
def mkProfitFactor (gp gl : ℚ) : ProfitFactor :=
  if 0 < gl then .finite (gp / gl)
  else if 0 < gp then .inf
  else .finite 0

/-- The fields of the `metrics` record of `src/pages/Analytics.tsx`
(lines 121-155) that the aggregation claims are about. -/
structure AnalyticsMetrics where
  totalTrades : ℕ
  wins : ℕ
  losses : ℕ
  breakeven : ℕ
  winRate : ℚ
  profitFactor : ProfitFactor
  totalPnl : ℚ
  grossProfit : ℚ
  grossLoss : ℚ
  avgWin : ℚ
  avgLoss : ℚ
deriving DecidableEq

/-- `metrics` from `src/pages/Analytics.tsx`: the empty input returns the
all-zero record (early return, lines 123-133); otherwise the counts come
from the `result` field, `winRate = (wins.length / t.length) * 100`, and
`profitFactor = grossLoss > 0 ? grossProfit / grossLoss
  : grossProfit > 0 ? Infinity : 0`. -/
def analyticsMetrics (t : List Trade) : AnalyticsMetrics :=
  if t.length = 0 then
    { totalTrades := 0, wins := 0, losses := 0, breakeven := 0, winRate := 0
      profitFactor := .finite 0, totalPnl := 0, grossProfit := 0
      grossLoss := 0, avgWin := 0, avgLoss := 0 }
  else
    let wins := t.filter (fun x => x.result == TradeResult.win)
    let losses := t.filter (fun x => x.result == TradeResult.loss)
    let breakeven := t.filter (fun x => x.result == TradeResult.breakeven)
    let grossProfit := (wins.map Trade.pnl).sum
    let grossLoss := |(losses.map Trade.pnl).sum|
    let totalPnl := (t.map Trade.pnl).sum
    let winRate : ℚ :=
      if 0 < t.length then ((wins.length : ℚ) / (t.length : ℚ)) * 100 else 0
    let profitFactor : ProfitFactor := mkProfitFactor grossProfit grossLoss
    let avgWin : ℚ := if 0 < wins.length then grossProfit / (wins.length : ℚ) else 0
    let avgLoss : ℚ := if 0 < losses.length then grossLoss / (losses.length : ℚ) else 0
    { totalTrades := t.length, wins := wins.length, losses := losses.length
      breakeven := breakeven.length, winRate := winRate
      profitFactor := profitFactor, totalPnl := totalPnl
      grossProfit := grossProfit, grossLoss := grossLoss
      avgWin := avgWin, avgLoss := avgLoss }

/-- `splitN` of the Dashboard's `tradeStats`:
`Math.max(activeAccounts.length, 1)`. -/
def dashSplitN (accs : List Account) : ℕ := max (activeCount accs) 1

/-- `oc` of the Dashboard's `tradeStats`: a split trade represents one
order per active account. -/
def dashOc (accs : List Account) (t : Trade) : ℕ :=
  if t.accountId == some "split" then dashSplitN accs else 1

/-- The Dashboard's weighted count of trades with a given `result`
(`wins` / `losses` reducers of `tradeStats`). -/
def dashCount (accs : List Account) (ts : List Trade) (r : TradeResult) : ℕ :=
  (ts.map (fun t => if t.result == r then dashOc accs t else 0)).sum

/-- The fields of the Dashboard's `tradeStats` record
(`src/pages/Dashboard.tsx` lines 99-123) the claims are about. -/
structure DashboardStats where
  wins : ℕ
  losses : ℕ
  totalPnl : ℚ
  winRate : ℤ
  grossProfit : ℚ
  grossLoss : ℚ
  profitFactor : ProfitFactor
deriving DecidableEq

/-- `tradeStats` from `src/pages/Dashboard.tsx`:
`winRate = tradingCount > 0 ? Math.round((wins / tradingCount) * 100) : 0`,
gross profit/loss by the SIGN of `pnl` (not by `result`),
`profitFactor = grossLoss > 0 ? grossProfit / grossLoss
  : grossProfit > 0 ? Infinity : 0`. -/
def dashboardStats (accs : List Account) (ts : List Trade) : DashboardStats :=
  let wins := dashCount accs ts .win
  let losses := dashCount accs ts .loss
  let totalPnl := (ts.map Trade.pnl).sum
  let tradingCount := wins + losses
  let winRate : ℤ :=
    if 0 < tradingCount then round (((wins : ℚ) / (tradingCount : ℚ)) * 100)
    else 0
  let grossProfit := ((ts.filter (fun t => decide (0 < t.pnl))).map Trade.pnl).sum
  let grossLoss := |((ts.filter (fun t => decide (t.pnl < 0))).map Trade.pnl).sum|
  let profitFactor : ProfitFactor := mkProfitFactor grossProfit grossLoss
  { wins := wins, losses := losses, totalPnl := totalPnl, winRate := winRate
    grossProfit := grossProfit, grossLoss := grossLoss
    profitFactor := profitFactor }

/-! ### Dashboard/Calendar Derivation (the trade-aware Calendar page) -/

/-- Model of JavaScript `String.prototype.startsWith`, written as a
character-list prefix test so that concrete instances reduce in the
kernel. -/
def strStartsWith (s p : String) : Bool := p.data.isPrefixOf s.data

/-- Lookup in an insertion-ordered association list; models
`Map.get` / `Map.has` of the JavaScript `Map`s built by the Calendar page. -/
def mapFind (m : List (String × ℚ)) (d : String) : Option ℚ :=
  match m with
  | [] => none
  | (k, v) :: rest => if k = d then some v else mapFind rest d

/-- `dayPnl.set(t.date, (dayPnl.get(t.date) || 0) + t.pnl)`: add to an
existing key in place, else append at the end (JavaScript `Map` insertion
order). -/
def addPnl (m : List (String × ℚ)) (d : String) (p : ℚ) : List (String × ℚ) :=
  match m with
  | [] => [(d, p)]
  | (k, v) :: rest =>
    if k = d then (k, v + p) :: rest else (k, v) :: addPnl rest d p

/-- `trades.filter(t => t.date.startsWith(monthStr))` from `monthStats`. -/
def monthTrades (m : String) (ts : List Trade) : List Trade :=
  ts.filter (fun t => strStartsWith t.date m)

/-- The `dayPnl` map of the Calendar's `monthStats`: per-day net trade
P&L, then manual daily entries of the month (with a defined `pnl`) added
only for dates that have no trades. -/
def dayPnlMap (m : String) (ts : List Trade) (es : List DailyEntry) :
    List (String × ℚ) :=
  let base := (monthTrades m ts).foldl (fun acc t => addPnl acc t.date t.pnl) []
  (es.filter (fun e => strStartsWith e.date m && e.pnl.isSome)).foldl
    (fun acc e =>
      if (mapFind acc e.date).isSome then acc
      else acc ++ [(e.date, e.pnl.getD 0)])
    base

/-- The `monthStats` record of the trade-aware Calendar page. -/
structure MonthStats where
  totalPnl : ℚ
  winDays : ℕ
  lossDays : ℕ
  tradingDays : ℕ
deriving DecidableEq

/-- `monthStats` of the trade-aware Calendar page: `winDays` / `lossDays`
count days of the `dayPnl` map with positive / negative value, and the
returned `tradingDays` is `allDays = dayPnl.size` (every day with data,
zero-P&L days included). -/
def monthStats (m : String) (ts : List Trade) (es : List DailyEntry) :
    MonthStats :=
  let dp := dayPnlMap m ts es
  { totalPnl := ((monthTrades m ts).map Trade.pnl).sum
    winDays := dp.countP (fun p => decide (0 < p.2))
    lossDays := dp.countP (fun p => decide (p.2 < 0))
    tradingDays := dp.length }

/-- The Win Rate figure displayed by the Calendar page:
`tradingDays > 0 ? Math.round((winDays / tradingDays) * 100) : 0`. -/
def calendarWinRate (s : MonthStats) : ℤ :=
  if 0 < s.tradingDays then
    round (((s.winDays : ℚ) / (s.tradingDays : ℚ)) * 100)
  else 0

/-- Last daily entry with a given date wins, as in the `entryMap`
`Map` built by `dailyEntries.forEach((e) => map.set(e.date, e))`. -/
def entryFor (es : List DailyEntry) (d : String) : Option DailyEntry :=
  es.reverse.find? (fun e => e.date == d)

/-- The day-cell P&L resolution of the Calendar page:
`tradePnl = dayTrades.length > 0 ? Σ pnl : null; pnl = tradePnl ?? entry?.pnl`. -/
def resolveDayPnl (ts : List Trade) (es : List DailyEntry) (d : String) :
    Option ℚ :=
  let dayTrades := ts.filter (fun t => t.date == d)
  let tradePnl : Option ℚ :=
    if 0 < dayTrades.length then some ((dayTrades.map Trade.pnl).sum) else none
  tradePnl.orElse (fun _ => (entryFor es d).bind DailyEntry.pnl)

/-- The tuple of `Account` fields that `recalcAccountPnl` never writes:
id, type, propFirm, accountSize, startDate, maxDrawdown, profitTarget,
notes. -/
def frameFields (a : Account) :
    String × AccountType × String × ℚ × String × Option ℚ × Option ℚ ×
      Option String :=
  (a.id, a.type, a.propFirm, a.accountSize, a.startDate, a.maxDrawdown,
    a.profitTarget, a.notes)

/-! ### Helper lemmas about the reconciler -/

lemma recalc_getElem (today : String) (A : List Account) (T : List Trade)
    (i : ℕ) :
    (recalcAccountPnl today A T)[i]? =
      (A[i]?).map
        (recalcOne today (activeIds A) (activeIds A).length
          (hasSplitTrades T) T) := by
  simp [recalcAccountPnl]

lemma id_mem_activeIds {A : List Account} {a : Account}
    (ha : a ∈ A) (hact : isActiveTrading a = true) : a.id ∈ activeIds A := by
  simp only [activeIds, List.mem_map]
  exact ⟨a, List.mem_filter.2 ⟨ha, hact⟩, rfl⟩

lemma id_not_mem_activeIds {A : List Account} {a : Account}
    (hnd : (A.map Account.id).Nodup) (ha : a ∈ A)
    (hact : isActiveTrading a = false) : a.id ∉ activeIds A := by
  intro hmem
  simp only [activeIds, List.mem_map] at hmem
  rcases hmem with ⟨b, hbmem, hbid⟩
  have hb : b ∈ A := (List.mem_filter.1 hbmem).1
  have hbact : isActiveTrading b = true := (List.mem_filter.1 hbmem).2
  have : b = a := List.inj_on_of_nodup_map hnd hb ha hbid
  rw [this, hact] at hbact
  exact Bool.false_ne_true hbact

lemma activeIds_length (A : List Account) :
    (activeIds A).length = activeCount A := by
  simp [activeIds, activeCount]

lemma activeCount_pos_of_active {A : List Account} {a : Account}
    (ha : a ∈ A) (hact : isActiveTrading a = true) : 0 < activeCount A := by
  have : a ∈ A.filter isActiveTrading := List.mem_filter.2 ⟨ha, hact⟩
  exact List.length_pos.2 (List.ne_nil_of_mem this)

/-! ### C10 — frame of the reconciler -/

/-- C10: the Account P&L Reconciler preserves the length and order of the
account collection, and every field other than `profitLoss`, `status` and
`endDate` (i.e. id, type, propFirm, accountSize, startDate, maxDrawdown,
profitTarget, notes) is unchanged at every position. -/
theorem c10_reconciler_frame (today : String) (A : List Account)
    (T : List Trade) :
    (recalcAccountPnl today A T).length = A.length ∧
      ∀ i : ℕ, ((recalcAccountPnl today A T)[i]?).map frameFields =
        (A[i]?).map frameFields := by
  refine ⟨by simp [recalcAccountPnl], fun i => ?_⟩
  rw [recalc_getElem]
  cases A[i]? with
  | none => rfl
  | some a =>
    simp only [Option.map_some']
    cases h : touched (activeIds A) (hasSplitTrades T) T a <;>
      simp [recalcOne, applyRecalc, h, frameFields]

/-! ### C2 — untouched accounts invariant -/

/-- C2: an account with zero direct trades that is not split-eligible
(inactive, or no split trade exists) is returned completely unchanged by
the reconciler. -/
theorem c2_untouched_account (today : String) (A : List Account)
    (T : List Trade) (i : ℕ) (a : Account)
    (hnd : (A.map Account.id).Nodup) (hia : A[i]? = some a)
    (hdir : directTradesOf T a.id = [])
    (hsp : isActiveTrading a = false ∨ hasSplitTrades T = false) :
    (recalcAccountPnl today A T)[i]? = some a := by
  have ha : a ∈ A := List.getElem?_mem hia
  have htouch : touched (activeIds A) (hasSplitTrades T) T a = false := by
    rcases hsp with h | h
    · simp [touched, hdir, id_not_mem_activeIds hnd ha h]
    · simp [touched, hdir, h]
  rw [recalc_getElem, hia]
  simp [recalcOne, htouch]

/-! ### C6 — conservation for direct-only accounts -/

/-- C6: for an account whose linked trades are all direct (no split trade
applies to it: either no split trade exists, or the account is not
currently active), the written-back profitLoss is the sum of its direct
trades' pnl, rounded to 2 decimal places. -/
theorem c6_direct_only_conservation (today : String) (A : List Account)
    (T : List Trade) (i : ℕ) (a : Account)
    (hnd : (A.map Account.id).Nodup) (hia : A[i]? = some a)
    (hne : directTradesOf T a.id ≠ [])
    (hcase : hasSplitTrades T = false ∨ isActiveTrading a = false) :
    ((recalcAccountPnl today A T)[i]?).map Account.profitLoss =
      some (round2 (((directTradesOf T a.id).map Trade.pnl).sum)) := by
  have ha : a ∈ A := List.getElem?_mem hia
  have hlen : 0 < (directTradesOf T a.id).length :=
    List.length_pos.2 hne
  have hno : ¬(a.id ∈ activeIds A ∧ hasSplitTrades T = true) := by
    rcases hcase with h | h
    · simp [h]
    · exact fun hc => id_not_mem_activeIds hnd ha h hc.1
  have htouch : touched (activeIds A) (hasSplitTrades T) T a = true := by
    simp [touched, hlen]
  rw [recalc_getElem, hia]
  simp only [Option.map_some']
  simp [recalcOne, applyRecalc, htouch, newPnlCore, hno]

/-! ### C5 — split distribution -/

/-- C5: when at least one split trade exists, every currently active
account receives exactly `splitPnl = Σ (pnl / N)` over the split trades
(on top of its direct P&L, the total rounded to 2 decimals), with `N` the
count of currently active accounts; an account that is not currently
active receives no split share: its written-back value is its direct sum
alone when it has direct trades, and its old `profitLoss` otherwise. -/
theorem c5_split_distribution (today : String) (A : List Account)
    (T : List Trade) (i : ℕ) (a : Account)
    (hnd : (A.map Account.id).Nodup) (hia : A[i]? = some a)
    (hs : hasSplitTrades T = true) :
    (isActiveTrading a = true →
      ((recalcAccountPnl today A T)[i]?).map Account.profitLoss =
        some (round2 (((directTradesOf T a.id).map Trade.pnl).sum +
          ((splitTrades T).map
            (fun t => t.pnl / (activeCount A : ℚ))).sum))) ∧
    (isActiveTrading a = false →
      ((recalcAccountPnl today A T)[i]?).map Account.profitLoss =
        some (if 0 < (directTradesOf T a.id).length then
          round2 (((directTradesOf T a.id).map Trade.pnl).sum)
        else a.profitLoss)) := by
  have ha : a ∈ A := List.getElem?_mem hia
  constructor
  · intro hact
    have hmem : a.id ∈ activeIds A := id_mem_activeIds ha hact
    have hpos : 0 < activeCount A := activeCount_pos_of_active ha hact
    have hlen : 0 < (activeIds A).length := by rw [activeIds_length]; exact hpos
    have htouch : touched (activeIds A) (hasSplitTrades T) T a = true := by
      simp [touched, hmem, hs]
    have htouch2 : touched (activeIds A) true T a = true := by
      rw [hs] at htouch; exact htouch
    rw [recalc_getElem, hia]
    simp only [Option.map_some']
    simp [recalcOne, applyRecalc, htouch, htouch2, newPnlCore, hmem, hs, hlen,
      hpos, activeIds_length]
  · intro hact
    have hno : ¬(a.id ∈ activeIds A ∧ hasSplitTrades T = true) := fun hc =>
      id_not_mem_activeIds hnd ha hact hc.1
    by_cases hdir : 0 < (directTradesOf T a.id).length
    · have htouch : touched (activeIds A) (hasSplitTrades T) T a = true := by
        simp [touched, hdir]
      rw [recalc_getElem, hia]
      simp only [Option.map_some']
      simp [recalcOne, applyRecalc, htouch, newPnlCore, hno, hdir]
    · have hdir' : directTradesOf T a.id = [] := by
        rcases List.eq_nil_or_concat (directTradesOf T a.id) with h | ⟨l, x, h⟩
        · exact h
        · exfalso; apply hdir; rw [h]; simp
      have hnm : a.id ∉ activeIds A := fun hm => hno ⟨hm, hs⟩
      have htouch : touched (activeIds A) (hasSplitTrades T) T a = false := by
        simp [touched, hdir', hnm]
      rw [recalc_getElem, hia]
      simp [recalcOne, htouch, hdir]

/-! ### C1 — threshold tie-break (corrected) -/

/-- C1 (amended): for an in-progress evaluation account with both
thresholds set whose recomputed `newPnl` simultaneously satisfies
`newPnl ≤ -maxDrawdown` and `newPnl ≥ profitTarget`, the resulting status
is `passed`, not `failed`: the profit-target block runs after the
drawdown block and re-tests the ORIGINAL status, so it overwrites the
just-set failure. -/
theorem c1_amended_pass_overwrites_fail (today : String) (A : List Account)
    (T : List Trade) (i : ℕ) (a : Account) (md pt : ℚ)
    (hia : A[i]? = some a)
    (hty : a.type = AccountType.evaluation)
    (hst : a.status = AccountStatus.in_progress)
    (hmd : a.maxDrawdown = some md) (hpt : a.profitTarget = some pt)
    (htouch : touched (activeIds A) (hasSplitTrades T) T a = true)
    (hdd : accountNewPnl A T a ≤ -md) (hpp : pt ≤ accountNewPnl A T a) :
    ((recalcAccountPnl today A T)[i]?).map Account.status =
      some AccountStatus.passed := by
  rw [recalc_getElem, hia]
  simp only [Option.map_some']
  have hcore : newPnlCore (activeIds A) (activeIds A).length
      (hasSplitTrades T) T a = accountNewPnl A T a := rfl
  simp [recalcOne, applyRecalc, htouch, stepStatus, hty, hst, hmd, hpt, hcore,
    hpp]

/-! ### C4 — idempotence (corrected: holds without split trades) -/

lemma drawdownStep_skip (t : String) (ty : AccountType)
    (st : AccountStatus) (ed : Option String) (md : Option ℚ) (p : ℚ)
    (h1 : ¬(ty = .evaluation ∧ st = .in_progress))
    (h2 : ¬(ty = .funded ∧ st = .active)) :
    drawdownStep t ty st ed md p = (st, ed) := by
  cases md with
  | none => rfl
  | some m =>
    simp only [drawdownStep]
    split_ifs <;> simp_all

lemma stepStatus_skip (t : String) (ty : AccountType)
    (st : AccountStatus) (ed : Option String) (md pt : Option ℚ) (p : ℚ)
    (h1 : ¬(ty = .evaluation ∧ st = .in_progress))
    (h2 : ¬(ty = .funded ∧ st = .active)) :
    stepStatus t ty st ed md pt p = (st, ed) := by
  cases pt with
  | none => exact drawdownStep_skip t ty st ed md p h1 h2
  | some q =>
    simp only [stepStatus]
    rw [if_neg (by tauto), drawdownStep_skip t ty st ed md p h1 h2]

lemma stepStatus_idem (t1 t2 : String) (ty : AccountType)
    (st : AccountStatus) (ed : Option String) (md pt : Option ℚ) (p : ℚ) :
    stepStatus t2 ty (stepStatus t1 ty st ed md pt p).1
      (stepStatus t1 ty st ed md pt p).2 md pt p =
      stepStatus t1 ty st ed md pt p := by
  by_cases hfire : ∃ q, pt = some q ∧ ty = .evaluation ∧
      st = .in_progress ∧ q ≤ p
  · rcases hfire with ⟨q, hq, hty, hst, hqp⟩
    have h1 : stepStatus t1 ty st ed md pt p = (.passed, some t1) := by
      rw [hq]; simp only [stepStatus]; rw [if_pos ⟨hty, hst, hqp⟩]
    rw [h1]
    exact stepStatus_skip t2 ty .passed (some t1) md pt p
      (by rintro ⟨-, h⟩; exact AccountStatus.noConfusion h)
      (by rintro ⟨-, h⟩; exact AccountStatus.noConfusion h)
  · have hnofire : ∀ q, pt = some q →
        ¬(ty = .evaluation ∧ st = .in_progress ∧ q ≤ p) := by
      intro q hq hc
      exact hfire ⟨q, hq, hc⟩
    have h1 : stepStatus t1 ty st ed md pt p = drawdownStep t1 ty st ed md p := by
      cases pt with
      | none => rfl
      | some q => simp only [stepStatus]; rw [if_neg (hnofire q rfl)]
    have h2 : ∀ st' ed', stepStatus t2 ty st' ed' md pt p =
        if ty = .evaluation ∧ st' = .in_progress ∧
            (∃ q, pt = some q ∧ q ≤ p) then
          (.passed, some t2)
        else drawdownStep t2 ty st' ed' md p := by
      intro st' ed'
      cases pt with
      | none => simp [stepStatus]
      | some q =>
        simp only [stepStatus]
        split_ifs with hA hB hB <;> simp_all <;> first | tauto | linarith
    rw [h1]
    by_cases hdd : ∃ m, md = some m ∧ p ≤ -m
    · rcases hdd with ⟨m, hm, hpm⟩
      by_cases hev : ty = .evaluation ∧ st = .in_progress
      · have hd1 : drawdownStep t1 ty st ed md p = (.failed, some t1) := by
          rw [hm]; simp only [drawdownStep]; rw [if_pos hpm, if_pos hev]
        rw [hd1, h2]
        rw [if_neg (by rintro ⟨-, h, -⟩; exact AccountStatus.noConfusion h)]
        exact drawdownStep_skip t2 ty .failed (some t1) md p
          (by rintro ⟨-, h⟩; exact AccountStatus.noConfusion h)
          (by rintro ⟨-, h⟩; exact AccountStatus.noConfusion h)
      · by_cases hfu : ty = .funded ∧ st = .active
        · have hd1 : drawdownStep t1 ty st ed md p = (.breached, some t1) := by
            rw [hm]; simp only [drawdownStep]
            rw [if_pos hpm, if_neg hev, if_pos hfu]
          rw [hd1, h2]
          rw [if_neg (by rintro ⟨h, -, -⟩; rw [h] at hfu; tauto)]
          exact drawdownStep_skip t2 ty .breached (some t1) md p
            (by rintro ⟨-, h⟩; exact AccountStatus.noConfusion h)
            (by rintro ⟨-, h⟩; exact AccountStatus.noConfusion h)
        · have hd1 : drawdownStep t1 ty st ed md p = (st, ed) :=
            drawdownStep_skip t1 ty st ed md p hev hfu
          rw [hd1, h2]
          rw [if_neg (by
            rintro ⟨hty, hst, q, hq, hqp⟩
            exact hfire ⟨q, hq, hty, hst, hqp⟩)]
          exact drawdownStep_skip t2 ty st ed md p hev hfu
    · have hd1 : drawdownStep t1 ty st ed md p = (st, ed) := by
        cases md with
        | none => rfl
        | some m =>
          simp only [drawdownStep]
          rw [if_neg (fun hc => hdd ⟨m, rfl, hc⟩)]
      rw [hd1, h2]
      rw [if_neg (by
        rintro ⟨hty, hst, q, hq, hqp⟩
        exact hfire ⟨q, hq, hty, hst, hqp⟩)]
      cases md with
      | none => rfl
      | some m =>
        simp only [drawdownStep]
        rw [if_neg (fun hc => hdd ⟨m, rfl, hc⟩)]

lemma applyRecalc_id (t : String) (p : ℚ) (a : Account) :
    (applyRecalc t p a).id = a.id := rfl

lemma recalcOne_touched_eq (t : String) (ids : List String) (n : ℕ)
    (hs : Bool) (T : List Trade) (a : Account)
    (h : touched ids hs T a = true) :
    recalcOne t ids n hs T a = applyRecalc t (newPnlCore ids n hs T a) a := by
  rw [recalcOne, if_pos h]

lemma recalcOne_untouched_eq (t : String) (ids : List String) (n : ℕ)
    (hs : Bool) (T : List Trade) (a : Account)
    (h : touched ids hs T a = false) :
    recalcOne t ids n hs T a = a := by
  rw [recalcOne]
  simp [h]

lemma applyRecalc_idem (t1 t2 : String) (p : ℚ) (a : Account) :
    applyRecalc t2 p (applyRecalc t1 p a) = applyRecalc t1 p a := by
  cases a with
  | mk id ty firm size start st ed pl md pt notes =>
    simp only [applyRecalc]
    simp [stepStatus_idem t1 t2 ty st ed md pt p]

lemma recalcOne_no_split_idem (t1 t2 : String) (ids1 ids2 : List String)
    (n1 n2 : ℕ) (T : List Trade) (a : Account) :
    recalcOne t2 ids2 n2 false T (recalcOne t1 ids1 n1 false T a) =
      recalcOne t1 ids1 n1 false T a := by
  by_cases hdir : 0 < (directTradesOf T a.id).length
  · have htouch1 : touched ids1 false T a = true := by simp [touched, hdir]
    rw [recalcOne_touched_eq t1 ids1 n1 false T a htouch1]
    have htouch2 :
        touched ids2 false T (applyRecalc t1 (newPnlCore ids1 n1 false T a) a)
          = true := by
      simp [touched, applyRecalc_id, hdir]
    rw [recalcOne_touched_eq t2 ids2 n2 false T _ htouch2]
    have hpeq : newPnlCore ids2 n2 false T
        (applyRecalc t1 (newPnlCore ids1 n1 false T a) a) =
        newPnlCore ids1 n1 false T a := by
      simp [newPnlCore, applyRecalc_id]
    rw [hpeq]
    exact applyRecalc_idem t1 t2 (newPnlCore ids1 n1 false T a) a
  · have hdir' : directTradesOf T a.id = [] := by
      cases h : directTradesOf T a.id with
      | nil => rfl
      | cons x xs => rw [h] at hdir; simp at hdir
    have htouch1 : touched ids1 false T a = false := by
      simp [touched, hdir']
    have htouch2 : touched ids2 false T a = false := by
      simp [touched, hdir']
    rw [recalcOne_untouched_eq t1 ids1 n1 false T a htouch1,
      recalcOne_untouched_eq t2 ids2 n2 false T a htouch2]

/-- C4 (amended): the Account P&L Reconciler is idempotent whenever no
trade carries the "split" sentinel: with `hasSplitTrades T = false`,
re-running it on its own output changes nothing.  (With split trades
present, a status transition in the first pass can shrink the active set
and change the second pass's split distribution, so full idempotence
fails; see the counterexample.) -/
theorem c4_amended_idempotent_without_split (t1 t2 : String)
    (A : List Account) (T : List Trade) (h : hasSplitTrades T = false) :
    recalcAccountPnl t2 (recalcAccountPnl t1 A T) T =
      recalcAccountPnl t1 A T := by
  unfold recalcAccountPnl
  rw [h, List.map_map]
  apply List.map_congr_left
  intro a _
  exact recalcOne_no_split_idem t1 t2 (activeIds A)
    (activeIds (List.map (recalcOne t1 (activeIds A) (activeIds A).length
      false T) A))
    (activeIds A).length
    (activeIds (List.map (recalcOne t1 (activeIds A) (activeIds A).length
      false T) A)).length T a

/-! ### C3 — win rate (corrected) and C9 — profit factor -/

lemma result_partition (ts : List Trade) :
    (ts.filter (fun x => x.result == TradeResult.win)).length +
      (ts.filter (fun x => x.result == TradeResult.loss)).length +
      (ts.filter (fun x => x.result == TradeResult.breakeven)).length =
      ts.length := by
  induction ts with
  | nil => rfl
  | cons t rest ih =>
    cases h : t.result <;> simp [List.filter_cons, h] <;> omega

/-- C3 (amended): the Analytics win rate divides the win count by the
TOTAL trade count — breakeven trades are included in the denominator —
and is 0 for the empty list (`totalTrades = wins + losses + breakeven`
makes the denominator explicit); the Dashboard variant divides by
wins + losses but rounds to the nearest integer and weights split trades
by the active-account count. -/
theorem c3_amended_win_rate (ts : List Trade) (accs : List Account) :
    ((analyticsMetrics ts).winRate =
      if ts.length = 0 then 0
      else 100 * ((ts.countP (fun t => t.result == TradeResult.win) : ℚ)) /
        (ts.length : ℚ)) ∧
    (analyticsMetrics ts).totalTrades =
      (analyticsMetrics ts).wins + (analyticsMetrics ts).losses +
        (analyticsMetrics ts).breakeven ∧
    (dashboardStats accs ts).winRate =
      (if 0 < dashCount accs ts .win + dashCount accs ts .loss then
        round ((100 : ℚ) * (dashCount accs ts .win : ℚ) /
          ((dashCount accs ts .win : ℚ) + (dashCount accs ts .loss : ℚ)))
      else 0) := by
  refine ⟨?_, ?_, ?_⟩
  · by_cases h : ts.length = 0
    · simp [analyticsMetrics, h]
    · have hpos : 0 < ts.length := Nat.pos_of_ne_zero h
      simp only [analyticsMetrics, if_neg h, if_pos hpos]
      rw [List.countP_eq_length_filter]
      ring
  · by_cases h : ts.length = 0
    · simp [analyticsMetrics, h]
    · simp only [analyticsMetrics, if_neg h]
      exact (result_partition ts).symm
  · simp only [dashboardStats]
    by_cases h : 0 < dashCount accs ts .win + dashCount accs ts .loss
    · rw [if_pos h, if_pos h]
      congr 1
      push_cast
      ring
    · rw [if_neg h, if_neg h]

lemma mkProfitFactor_cases (gp gl : ℚ) :
    (0 < gl → mkProfitFactor gp gl = .finite (gp / gl)) ∧
      (gl = 0 → 0 < gp → mkProfitFactor gp gl = .inf) ∧
      (gl = 0 → gp = 0 → mkProfitFactor gp gl = .finite 0) := by
  unfold mkProfitFactor
  split_ifs <;> simp_all <;> intro h <;> simp_all <;> linarith

lemma analyticsMetrics_pf (ts : List Trade) :
    (analyticsMetrics ts).profitFactor =
      mkProfitFactor (analyticsMetrics ts).grossProfit
        (analyticsMetrics ts).grossLoss := by
  by_cases h : ts.length = 0 <;> simp [analyticsMetrics, h, mkProfitFactor]

lemma dashboardStats_pf (accs : List Account) (ts : List Trade) :
    (dashboardStats accs ts).profitFactor =
      mkProfitFactor (dashboardStats accs ts).grossProfit
        (dashboardStats accs ts).grossLoss := rfl

/-- C9: for both aggregation variants, the profit factor is
grossProfit / grossLoss when grossLoss > 0, the positive-infinity
sentinel when grossLoss = 0 and grossProfit > 0, and 0 when both are 0
(which covers the empty trade list, whose gross sums are both 0). -/
theorem c9_profit_factor (ts : List Trade) (accs : List Account) :
    ((0 < (analyticsMetrics ts).grossLoss →
      (analyticsMetrics ts).profitFactor =
        .finite ((analyticsMetrics ts).grossProfit /
          (analyticsMetrics ts).grossLoss)) ∧
     ((analyticsMetrics ts).grossLoss = 0 →
      0 < (analyticsMetrics ts).grossProfit →
      (analyticsMetrics ts).profitFactor = .inf) ∧
     ((analyticsMetrics ts).grossLoss = 0 →
      (analyticsMetrics ts).grossProfit = 0 →
      (analyticsMetrics ts).profitFactor = .finite 0)) ∧
    ((0 < (dashboardStats accs ts).grossLoss →
      (dashboardStats accs ts).profitFactor =
        .finite ((dashboardStats accs ts).grossProfit /
          (dashboardStats accs ts).grossLoss)) ∧
     ((dashboardStats accs ts).grossLoss = 0 →
      0 < (dashboardStats accs ts).grossProfit →
      (dashboardStats accs ts).profitFactor = .inf) ∧
     ((dashboardStats accs ts).grossLoss = 0 →
      (dashboardStats accs ts).grossProfit = 0 →
      (dashboardStats accs ts).profitFactor = .finite 0)) := by
  constructor
  · rw [analyticsMetrics_pf]
    exact mkProfitFactor_cases _ _
  · rw [dashboardStats_pf]
    exact mkProfitFactor_cases _ _

/-! ### C7 — day-P&L precedence, C8 — monthly win rate -/

lemma mapFind_addPnl (m : List (String × ℚ)) (k d : String) (p : ℚ) :
    mapFind (addPnl m k p) d =
      if d = k then some ((mapFind m d).getD 0 + p) else mapFind m d := by
  induction m with
  | nil =>
    simp only [addPnl, mapFind]
    by_cases h : d = k
    · subst h; simp [mapFind]
    · rw [if_neg h, if_neg (fun hk => h hk.symm)]
  | cons hd rest ih =>
    obtain ⟨k', v⟩ := hd
    simp only [addPnl]
    by_cases hk : k' = k
    · subst hk
      rw [if_pos rfl]
      by_cases hd' : d = k'
      · subst hd'
        simp [mapFind]
      · have hd'' : ¬(k' = d) := fun h => hd' h.symm
        simp [mapFind, hd', hd'']
    · rw [if_neg hk]
      by_cases hd' : k' = d
      · subst hd'
        simp [mapFind, hk]
      · simp only [mapFind]
        rw [if_neg hd', if_neg hd', ih]

lemma mapFind_foldl_addPnl (ts : List Trade) (m : List (String × ℚ))
    (d : String) :
    mapFind (ts.foldl (fun acc t => addPnl acc t.date t.pnl) m) d =
      if (ts.filter (fun t => t.date == d)).length = 0 then mapFind m d
      else some ((mapFind m d).getD 0 +
        (((ts.filter (fun t => t.date == d)).map Trade.pnl).sum)) := by
  induction ts generalizing m with
  | nil => simp
  | cons t rest ih =>
    simp only [List.foldl_cons]
    rw [ih]
    by_cases hd : t.date = d
    · have hbeq : (t.date == d) = true := by simp [hd]
      have key : mapFind (addPnl m t.date t.pnl) d =
          some ((mapFind m d).getD 0 + t.pnl) := by
        rw [mapFind_addPnl, if_pos hd.symm]
      rw [key]
      simp only [List.filter_cons, hbeq, if_true, List.length_cons,
        List.map_cons, List.sum_cons]
      rw [if_neg (Nat.succ_ne_zero _)]
      by_cases hrest : (rest.filter (fun t => t.date == d)).length = 0
      · rw [if_pos hrest]
        have hnil : rest.filter (fun t => t.date == d) = [] :=
          List.length_eq_zero.1 hrest
        rw [hnil]
        simp
      · rw [if_neg hrest]
        simp only [Option.getD_some]
        congr 1
        ring
    · have hbeq : (t.date == d) = false := by simp [hd]
      have key : mapFind (addPnl m t.date t.pnl) d = mapFind m d := by
        rw [mapFind_addPnl, if_neg (fun h => hd h.symm)]
      rw [key]
      simp [List.filter_cons, hbeq]

lemma mapFind_append_single (m : List (String × ℚ)) (k d : String) (v : ℚ) :
    mapFind (m ++ [(k, v)]) d =
      if (mapFind m d).isSome then mapFind m d
      else if k = d then some v else none := by
  induction m with
  | nil => simp [mapFind]
  | cons hd rest ih =>
    obtain ⟨k', v'⟩ := hd
    simp only [List.cons_append, mapFind, List.append_eq]
    by_cases h : k' = d
    · simp [h]
    · rw [if_neg h, if_neg h]
      exact ih

lemma mapFind_entryFold (es : List DailyEntry) (m : List (String × ℚ))
    (d : String) (h : (mapFind m d).isSome) :
    mapFind (es.foldl (fun acc e =>
      if (mapFind acc e.date).isSome then acc
      else acc ++ [(e.date, e.pnl.getD 0)]) m) d = mapFind m d := by
  induction es generalizing m with
  | nil => rfl
  | cons e rest ih =>
    simp only [List.foldl_cons]
    by_cases hc : (mapFind m e.date).isSome
    · rw [if_pos hc, ih m h]
    · rw [if_neg hc, ih]
      · rw [mapFind_append_single, if_pos h]
      · rw [mapFind_append_single, if_pos h]; exact h

lemma filter_date_monthTrades (m d : String) (ts : List Trade)
    (hm : strStartsWith d m = true) :
    (monthTrades m ts).filter (fun t => t.date == d) =
      ts.filter (fun t => t.date == d) := by
  unfold monthTrades
  rw [List.filter_filter]
  apply List.filter_congr
  intro t _
  by_cases h : t.date = d
  · simp [h, hm]
  · simp [h]

/-- C7: wherever a day's P&L is resolved (the Calendar day cell and the
`monthStats` day map), a date with at least one trade resolves to the sum
of its trades' pnl — any manual DailyEntry for that date is ignored —
and a date with zero trades resolves to the manual entry's pnl (if any). -/
theorem c7_day_pnl_precedence (T : List Trade) (E : List DailyEntry)
    (d : String) :
    (T.filter (fun t => t.date == d) ≠ [] →
      resolveDayPnl T E d =
        some (((T.filter (fun t => t.date == d)).map Trade.pnl).sum)) ∧
    (T.filter (fun t => t.date == d) = [] →
      resolveDayPnl T E d = (entryFor E d).bind DailyEntry.pnl) ∧
    (∀ mo : String, strStartsWith d mo = true →
      T.filter (fun t => t.date == d) ≠ [] →
      mapFind (dayPnlMap mo T E) d =
        some (((T.filter (fun t => t.date == d)).map Trade.pnl).sum)) := by
  refine ⟨?_, ?_, ?_⟩
  · intro hne
    have hlen : 0 < (T.filter (fun t => t.date == d)).length :=
      List.length_pos.2 hne
    simp [resolveDayPnl, hlen, Option.orElse]
  · intro hnil
    simp [resolveDayPnl, hnil, Option.orElse]
  · intro mo hmo hne
    have hbase : mapFind ((monthTrades mo T).foldl
        (fun acc t => addPnl acc t.date t.pnl) []) d =
        some (((T.filter (fun t => t.date == d)).map Trade.pnl).sum) := by
      rw [mapFind_foldl_addPnl, filter_date_monthTrades mo d T hmo]
      rw [if_neg (fun h => hne (List.length_eq_zero.1 h))]
      simp [mapFind]
    unfold dayPnlMap
    rw [mapFind_entryFold _ _ _ (by rw [hbase]; rfl), hbase]

lemma countP_pos_neg_zero (l : List (String × ℚ)) :
    l.countP (fun p => decide (0 < p.2)) +
      l.countP (fun p => decide (p.2 < 0)) +
      l.countP (fun p => decide (p.2 = 0)) = l.length := by
  induction l with
  | nil => rfl
  | cons hd rest ih =>
    simp only [List.countP_cons, List.length_cons]
    rcases lt_trichotomy hd.2 0 with h | h | h
    · have h1 : decide (0 < hd.2) = false := by simp; linarith
      have h2 : decide (hd.2 < 0) = true := by simp [h]
      have h3 : decide (hd.2 = 0) = false := by simp; linarith
      rw [h1, h2, h3]; simp; omega
    · have h1 : decide (0 < hd.2) = false := by simp [h]
      have h2 : decide (hd.2 < 0) = false := by simp [h]
      have h3 : decide (hd.2 = 0) = true := by simp [h]
      rw [h1, h2, h3]; simp; omega
    · have h1 : decide (0 < hd.2) = true := by simp [h]
      have h2 : decide (hd.2 < 0) = false := by simp; linarith
      have h3 : decide (hd.2 = 0) = false := by simp; linarith
      rw [h1, h2, h3]; simp; omega

/-- C8 (amended): the monthly win rate displayed by the Calendar page is
`Math.round(winDays / D × 100)` where the denominator `D` is
`tradingDays`, the count of ALL days of the month with resolved data —
`tradingDays = winDays + lossDays + (number of zero-P&L days)`, so days
with exactly zero resolved P&L are counted in the denominator (0 when no
day has data). -/
theorem c8_amended_month_win_rate (mo : String) (T : List Trade)
    (E : List DailyEntry) :
    calendarWinRate (monthStats mo T E) =
      (if (monthStats mo T E).tradingDays = 0 then 0
       else round ((100 : ℚ) * ((monthStats mo T E).winDays : ℚ) /
         ((monthStats mo T E).tradingDays : ℚ))) ∧
    (monthStats mo T E).tradingDays =
      (monthStats mo T E).winDays + (monthStats mo T E).lossDays +
        (dayPnlMap mo T E).countP (fun p => decide (p.2 = 0)) := by
  constructor
  · unfold calendarWinRate
    by_cases h : (monthStats mo T E).tradingDays = 0
    · rw [if_neg (by omega), if_pos h]
    · rw [if_pos (Nat.pos_of_ne_zero h), if_neg h]
      congr 1
      ring
  · show (dayPnlMap mo T E).length = _
    rw [(countP_pos_neg_zero (dayPnlMap mo T E)).symm]
    rfl

/-! ### Concrete inputs for counterexamples and witnesses -/

/-- A minimal trade: only the fields the computation engine reads are
varied, the rest are neutral defaults. -/
def mkTrade (date : String) (acct : Option String) (p : ℚ)
    (r : TradeResult) : Trade :=
  { id := "", date := date, instrument := "", setupId := "",
    accountId := acct, direction := .long, entry := 0, contracts := 1,
    pnl := p, result := r }

/-- A minimal account. -/
def mkAccount (id : String) (ty : AccountType) (st : AccountStatus)
    (pl : ℚ) (md pt : Option ℚ) : Account :=
  { id := id, type := ty, propFirm := "", accountSize := 0, startDate := "",
    status := st, profitLoss := pl, maxDrawdown := md, profitTarget := pt }

def acctC1 : Account := mkAccount "a" .evaluation .in_progress 0 (some 0) (some 0)

def tradeC1 : Trade := mkTrade "2025-06-01" (some "a") 0 .breakeven

def acctX4 : Account := mkAccount "x" .funded .active 0 (some 100) none

def acctY4 : Account := mkAccount "y" .funded .active 0 none none

def tradeX4 : Trade := mkTrade "2025-06-01" (some "x") (-300) .loss

def tradeS4 : Trade := mkTrade "2025-06-01" (some "split") 100 .win

def acctB2 : Account := mkAccount "b" .funded .breached 123 none none

def tradeZ2 : Trade := mkTrade "2025-06-01" (some "zzz") 5 .win

def acctX5 : Account := mkAccount "x" .funded .active 0 none none

def acctZ5 : Account := mkAccount "z" .funded .breached 7 none none

def tradeZ5 : Trade := mkTrade "2025-06-01" (some "z") 5 .win

def acctC6 : Account := mkAccount "c" .funded .active 0 none none

def tradeC6 : Trade := mkTrade "2025-06-01" (some "c") (10125/1000) .win

def tradeW : Trade := mkTrade "2025-01-01" none 10 .win

def tradeB : Trade := mkTrade "2025-01-01" none 0 .breakeven

def tradeL : Trade := mkTrade "2025-01-01" none (-5) .loss

def trade81 : Trade := mkTrade "2025-01-01" none 100 .win

def trade82 : Trade := mkTrade "2025-01-02" none 50 .win

def trade83 : Trade := mkTrade "2025-01-02" none (-50) .loss

def trade7 : Trade := mkTrade "2025-03-05" none 100 .win

def entry7 : DailyEntry := { id := "", date := "2025-03-05", pnl := some (-50) }

section ConcreteEvaluation

attribute [local semireducible] Rat.mul Rat.inv Rat.add Rat.sub

/-- C1 counterexample: an in-progress evaluation account with
`maxDrawdown = 0` and `profitTarget = 0` and a single direct breakeven
trade satisfies both `newPnl ≤ -maxDrawdown` and `newPnl ≥ profitTarget`,
yet the reconciler resolves its status to `passed`, not `failed` as the
claim states. -/
theorem c1_counterexample :
    accountNewPnl [acctC1] [tradeC1] acctC1 ≤ -(0 : ℚ) ∧
      (0 : ℚ) ≤ accountNewPnl [acctC1] [tradeC1] acctC1 ∧
      (recalcAccountPnl "2025-06-02" [acctC1] [tradeC1]).map Account.status =
        [AccountStatus.passed] ∧
      AccountStatus.passed ≠ AccountStatus.failed := by
  refine ⟨by decide, by decide, by decide, by decide⟩

/-- C1 witness: the amended theorem applied to the concrete account. -/
theorem c1_amended_witness :
    ((recalcAccountPnl "2025-06-02" [acctC1] [tradeC1])[0]?).map
      Account.status = some AccountStatus.passed :=
  c1_amended_pass_overwrites_fail "2025-06-02" [acctC1] [tradeC1] 0 acctC1 0 0
    (by decide) (by decide) (by decide) (by decide) (by decide) (by decide)
    (by decide) (by decide)

/-- C2 witness: a breached account with profitLoss 123, no direct trades
and no split trade is returned unchanged. -/
theorem c2_witness :
    (recalcAccountPnl "2025-06-02" [acctB2] [tradeZ2])[0]? = some acctB2 :=
  c2_untouched_account "2025-06-02" [acctB2] [tradeZ2] 0 acctB2
    (by decide) (by decide) (by decide) (Or.inl (by decide))

/-- C4 counterexample: with a split trade present, account "x" breaches in
the first pass; the second pass then drops its split share (and doubles
"y"'s), so running the reconciler twice differs from running it once. -/
theorem c4_counterexample :
    recalcAccountPnl "2025-06-02"
        (recalcAccountPnl "2025-06-02" [acctX4, acctY4] [tradeX4, tradeS4])
        [tradeX4, tradeS4] ≠
      recalcAccountPnl "2025-06-02" [acctX4, acctY4] [tradeX4, tradeS4] := by
  decide

/-- C4 witness: the amended idempotence theorem at a concrete split-free
input. -/
theorem c4_amended_witness :
    hasSplitTrades [tradeX4] = false ∧
      recalcAccountPnl "2025-06-02"
          (recalcAccountPnl "2025-06-02" [acctX4, acctY4] [tradeX4])
          [tradeX4] =
        recalcAccountPnl "2025-06-02" [acctX4, acctY4] [tradeX4] :=
  ⟨by decide,
    c4_amended_idempotent_without_split "2025-06-02" "2025-06-02"
      [acctX4, acctY4] [tradeX4] (by decide)⟩

/-- C5 witness: one active and one breached account plus a split trade of
100: the active account gets the whole split share (N = 1), the breached
account keeps only its direct sum. -/
theorem c5_witness :
    ((recalcAccountPnl "2025-06-02" [acctX5, acctZ5] [tradeS4, tradeZ5])[0]?).map
      Account.profitLoss = some 100 ∧
    ((recalcAccountPnl "2025-06-02" [acctX5, acctZ5] [tradeS4, tradeZ5])[1]?).map
      Account.profitLoss = some 5 := by
  constructor
  · exact ((c5_split_distribution "2025-06-02" [acctX5, acctZ5]
      [tradeS4, tradeZ5] 0 acctX5 (by decide) (by decide) (by decide)).1
      (by decide)).trans (by decide)
  · exact ((c5_split_distribution "2025-06-02" [acctX5, acctZ5]
      [tradeS4, tradeZ5] 1 acctZ5 (by decide) (by decide) (by decide)).2
      (by decide)).trans (by decide)

/-- C6 witness: a single direct trade of 10.125 is written back rounded to
10.13 (JavaScript `Math.round` rounds the half up). -/
theorem c6_witness :
    ((recalcAccountPnl "2025-06-02" [acctC6] [tradeC6])[0]?).map
      Account.profitLoss = some (1013/100) :=
  (c6_direct_only_conservation "2025-06-02" [acctC6] [tradeC6] 0 acctC6
    (by decide) (by decide) (by decide) (Or.inl (by decide))).trans (by decide)

/-- C3 counterexample: one win plus one breakeven trade gives an Analytics
win rate of 50, not the claimed 100 = wins/(wins+losses)×100; and one win
plus two losses gives a Dashboard win rate of 33 ≠ 100/3. -/
theorem c3_counterexample :
    ¬((analyticsMetrics [tradeW, tradeB]).winRate =
      100 * ((analyticsMetrics [tradeW, tradeB]).wins : ℚ) /
        (((analyticsMetrics [tradeW, tradeB]).wins : ℚ) +
          ((analyticsMetrics [tradeW, tradeB]).losses : ℚ))) ∧
    ¬(((dashboardStats [] [tradeW, tradeL, tradeL]).winRate : ℚ) =
      100 * ((dashboardStats [] [tradeW, tradeL, tradeL]).wins : ℚ) /
        (((dashboardStats [] [tradeW, tradeL, tradeL]).wins : ℚ) +
          ((dashboardStats [] [tradeW, tradeL, tradeL]).losses : ℚ))) := by
  refine ⟨by decide, by decide⟩

/-- C9 witness: only winning trades give the infinity sentinel; the empty
list gives 0. -/
theorem c9_witness :
    (analyticsMetrics [tradeW]).profitFactor = ProfitFactor.inf ∧
      (analyticsMetrics []).profitFactor = ProfitFactor.finite 0 := by
  constructor
  · exact (c9_profit_factor [tradeW] []).1.2.1 (by decide) (by decide)
  · exact (c9_profit_factor [] []).1.2.2 (by decide) (by decide)

/-- C7 witness: a date with a trade of pnl 100 and a manual entry of -50
resolves to 100 (in the day cell and in the month map); with no trades it
resolves to the manual -50. -/
theorem c7_witness :
    resolveDayPnl [trade7] [entry7] "2025-03-05" = some 100 ∧
      resolveDayPnl [] [entry7] "2025-03-05" = some (-50) ∧
      mapFind (dayPnlMap "2025-03" [trade7] [entry7]) "2025-03-05" =
        some 100 := by
  refine ⟨?_, ?_, ?_⟩
  · exact ((c7_day_pnl_precedence [trade7] [entry7] "2025-03-05").1
      (by decide)).trans (by decide)
  · exact ((c7_day_pnl_precedence [] [entry7] "2025-03-05").2.1
      (by decide)).trans (by decide)
  · exact ((c7_day_pnl_precedence [trade7] [entry7] "2025-03-05").2.2
      "2025-03" (by decide) (by decide)).trans (by decide)

/-- C8 counterexample: January with one win day (+100) and one zero-P&L
day (+50, -50) displays a win rate of 50, not the claimed
winDays/(winDays+lossDays)×100 = 100: the zero day is counted in the
denominator. -/
theorem c8_counterexample :
    (monthStats "2025-01" [trade81, trade82, trade83] []).winDays = 1 ∧
      (monthStats "2025-01" [trade81, trade82, trade83] []).lossDays = 0 ∧
      calendarWinRate (monthStats "2025-01" [trade81, trade82, trade83] []) =
        50 ∧
      calendarWinRate (monthStats "2025-01" [trade81, trade82, trade83] []) ≠
        100 * ((monthStats "2025-01" [trade81, trade82, trade83] []).winDays : ℤ) /
          (((monthStats "2025-01" [trade81, trade82, trade83] []).winDays : ℤ) +
            ((monthStats "2025-01" [trade81, trade82, trade83] []).lossDays : ℤ)) := by
  refine ⟨by decide, by decide, by decide, by decide⟩

end ConcreteEvaluation

end PropTrader
